import Mathlib

/-!
Verification of the serial link session engine of `src/main.py`:
the `SerialReader` byte-stream framer, the `AppController` transmit path
(`send_line`), the connect handshake (`connect_serial`) and the disconnect
path (`stop_reader` / `disconnect_serial`).

Bytes are modelled as natural numbers (Python `bytes` elements are ints in
`0..255`; overflow never arises because the code only compares and copies
bytes).  Strings are modelled as lists of Unicode code points.
-/

namespace RFQ

/-- The frame delimiter byte `0x0D` (`FRAME_DELIM = b"\r"`, src/main.py:15). -/
def FRAME_DELIM : Nat := 13

/-- `bytearray.find(FRAME_DELIM)` (src/main.py:71): the index of the first
delimiter byte in the buffer, `none` where Python returns `-1`. -/
def findDelim : List Nat → Option Nat
  | [] => none
  | b :: rest => if b = FRAME_DELIM then some 0 else (findDelim rest).map (· + 1)

theorem findDelim_some_lt : ∀ {l : List Nat} {i : Nat},
    findDelim l = some i → i < l.length := by
  intro l
  induction l with
  | nil => intro i h; simp [findDelim] at h
  | cons b rest ih =>
    intro i h
    by_cases hb : b = FRAME_DELIM
    · simp only [findDelim, if_pos hb] at h
      injection h with h
      subst h
      simp
    · cases hfd : findDelim rest with
      | none =>
        simp only [findDelim, if_neg hb, hfd, Option.map_none'] at h
        exact Option.noConfusion h
      | some j =>
        simp only [findDelim, if_neg hb, hfd, Option.map_some'] at h
        injection h with h
        subst h
        have := ih hfd
        simp only [List.length_cons]
        omega

/-- The inner frame-extraction loop of `SerialReader.run` (src/main.py:70-76):
while the buffer contains a delimiter at index `idx`, emit `buf[:idx]` as a
frame and delete `buf[:idx+1]` from the front.  Returns the frames emitted by
the loop, in emission order, together with the final buffer contents. -/
def scanLoop (buf : List Nat) : List (List Nat) × List Nat :=
  match h : findDelim buf with
  | none => ([], buf)
  | some idx =>
    let p := scanLoop (buf.drop (idx + 1))
    (buf.take idx :: p.1, p.2)
termination_by buf.length
decreasing_by
  have := findDelim_some_lt h
  simp only [List.length_drop]
  omega

theorem scanLoop_of_none {buf : List Nat} (h : findDelim buf = none) :
    scanLoop buf = ([], buf) := by
  rw [scanLoop]
  split
  · rfl
  · rename_i idx hidx
    rw [h] at hidx
    simp at hidx

theorem scanLoop_of_some {buf : List Nat} {idx : Nat} (h : findDelim buf = some idx) :
    scanLoop buf = (buf.take idx :: (scanLoop (buf.drop (idx + 1))).1,
                    (scanLoop (buf.drop (idx + 1))).2) := by
  rw [scanLoop]
  split
  · rename_i hnone
    rw [h] at hnone
    simp at hnone
  · rename_i idx' hidx
    rw [h] at hidx
    injection hidx with hidx
    subst hidx
    rfl

/-- Structural reformulation of `scanLoop`, convenient for induction on the
buffer. -/
def extractF : List Nat → List (List Nat) × List Nat
  | [] => ([], [])
  | b :: rest =>
    let p := extractF rest
    if b = FRAME_DELIM then ([] :: p.1, p.2)
    else
      match p.1 with
      | [] => ([], b :: p.2)
      | f :: fs => ((b :: f) :: fs, p.2)

theorem scanLoop_eq_extractF : ∀ l : List Nat, scanLoop l = extractF l := by
  intro l
  induction l with
  | nil =>
    have h : findDelim [] = none := rfl
    rw [scanLoop_of_none h]
    rfl
  | cons b rest ih =>
    by_cases hb : b = FRAME_DELIM
    · have hfd : findDelim (b :: rest) = some 0 := by simp [findDelim, hb]
      rw [scanLoop_of_some hfd]
      simp only [List.take_zero, Nat.zero_add, List.drop_succ_cons, List.drop_zero]
      rw [ih]
      simp [extractF, hb]
    · cases hr : findDelim rest with
      | none =>
        have hfd : findDelim (b :: rest) = none := by
          simp [findDelim, hb, hr]
        rw [scanLoop_of_none hfd]
        have hrest : extractF rest = ([], rest) := by rw [← ih, scanLoop_of_none hr]
        simp [extractF, hb, hrest]
      | some i =>
        have hfd : findDelim (b :: rest) = some (i + 1) := by
          simp [findDelim, hb, hr]
        rw [scanLoop_of_some hfd]
        have hrest : extractF rest
            = (rest.take i :: (scanLoop (rest.drop (i + 1))).1,
               (scanLoop (rest.drop (i + 1))).2) := by
          rw [← ih, scanLoop_of_some hr]
        simp only [List.take_succ_cons, List.drop_succ_cons]
        simp [extractF, hb, hrest]

/-- Pieces of a byte sequence split at every delimiter at once (the spec's
reference framing): the delimiter-free pieces, in order; every piece but
the last is a completed frame, the last is the unterminated tail. -/
def splitPieces : List Nat → List (List Nat)
  | [] => [[]]
  | b :: rest =>
    if b = FRAME_DELIM then [] :: splitPieces rest
    else
      match splitPieces rest with
      | [] => [[b]]
      | p :: ps => (b :: p) :: ps

theorem splitPieces_ne_nil : ∀ l : List Nat, splitPieces l ≠ [] := by
  intro l
  induction l with
  | nil => simp [splitPieces]
  | cons b rest ih =>
    by_cases hb : b = FRAME_DELIM
    · simp [splitPieces, hb]
    · simp only [splitPieces, if_neg hb]
      cases splitPieces rest <;> simp

theorem extractF_eq_splitPieces : ∀ l : List Nat,
    extractF l = ((splitPieces l).dropLast, (splitPieces l).getLastD []) := by
  intro l
  induction l with
  | nil => rfl
  | cons b rest ih =>
    by_cases hb : b = FRAME_DELIM
    · simp only [extractF, splitPieces, if_pos hb, ih]
      cases hs : splitPieces rest with
      | nil => exact absurd hs (splitPieces_ne_nil rest)
      | cons p ps => simp
    · simp only [extractF, splitPieces, if_neg hb, ih]
      cases hs : splitPieces rest with
      | nil => exact absurd hs (splitPieces_ne_nil rest)
      | cons p ps =>
        cases ps with
        | nil => simp
        | cons q qs => simp

/-- Composition law for the extraction loop: scanning `l ++ m` emits first the
frames of `l`, then the frames obtained by scanning `l`'s leftover buffer
extended with `m`. -/
theorem extractF_append : ∀ l m : List Nat,
    extractF (l ++ m)
      = ((extractF l).1 ++ (extractF ((extractF l).2 ++ m)).1,
         (extractF ((extractF l).2 ++ m)).2) := by
  intro l
  induction l with
  | nil => intro m; simp [extractF]
  | cons b rest ih =>
    intro m
    by_cases hb : b = FRAME_DELIM
    · simp only [List.cons_append, extractF, if_pos hb, List.append_eq]
      rw [ih m]
    · simp only [List.cons_append, extractF, if_neg hb, List.append_eq]
      cases hr : (extractF rest).1 with
      | cons f fs =>
        have h1 : (extractF (rest ++ m)).1
            = (f :: fs) ++ (extractF ((extractF rest).2 ++ m)).1 := by
          rw [ih m, hr]
        have h2 : (extractF (rest ++ m)).2 = (extractF ((extractF rest).2 ++ m)).2 := by
          rw [ih m]
        rw [h1, h2]
        simp
      | nil =>
        have h1 : (extractF (rest ++ m)).1 = (extractF ((extractF rest).2 ++ m)).1 := by
          rw [ih m, hr]; simp
        have h2 : (extractF (rest ++ m)).2 = (extractF ((extractF rest).2 ++ m)).2 := by
          rw [ih m]
        rw [h1, h2]
        cases hq : (extractF ((extractF rest).2 ++ m)).1 <;> simp [extractF, hb, hq]

/-- Reconstruction: the emitted frames, each re-terminated with the delimiter,
followed by the leftover buffer, give back the scanned bytes. -/
theorem extractF_reconstruct : ∀ l : List Nat,
    ((extractF l).1.map (fun f => f ++ [FRAME_DELIM])).flatten ++ (extractF l).2 = l := by
  intro l
  induction l with
  | nil => rfl
  | cons b rest ih =>
    by_cases hb : b = FRAME_DELIM
    · simp only [extractF, if_pos hb, List.map_cons, List.flatten_cons]
      simp only [List.nil_append, List.cons_append, List.append_assoc] at ih ⊢
      rw [ih, hb]
    · simp only [extractF, if_neg hb]
      cases hr : (extractF rest).1 with
      | nil =>
        rw [hr] at ih
        simpa using ih
      | cons f fs =>
        rw [hr] at ih
        simp only [List.map_cons, List.flatten_cons, List.cons_append,
          List.append_assoc] at ih ⊢
        rw [ih]

/-- The leftover buffer of a scan contains no delimiter. -/
theorem extractF_snd_not_mem : ∀ l : List Nat, FRAME_DELIM ∉ (extractF l).2 := by
  intro l
  induction l with
  | nil => simp [extractF]
  | cons b rest ih =>
    by_cases hb : b = FRAME_DELIM
    · simpa [extractF, hb] using ih
    · simp only [extractF, if_neg hb]
      cases hr : (extractF rest).1 with
      | nil =>
        intro hmem
        rcases List.mem_cons.mp hmem with h | h
        · exact hb h.symm
        · exact ih h
      | cons f fs => exact ih

/-- A delimiter-free buffer is left unchanged by the scan, emitting nothing. -/
theorem extractF_of_not_mem : ∀ l : List Nat, FRAME_DELIM ∉ l → extractF l = ([], l) := by
  intro l
  induction l with
  | nil => intro _; rfl
  | cons b rest ih =>
    intro h
    have hb : b ≠ FRAME_DELIM := fun hc => h (by simp [hc])
    have hrest : FRAME_DELIM ∉ rest := fun hc => h (by simp [hc])
    simp [extractF, hb, ih hrest]

/-- One body iteration of `SerialReader.run` for the chunk returned by
`ser.read(4096)` (src/main.py:68-79): an empty read leaves the accumulator
alone (the thread just sleeps), otherwise the chunk is appended to the
accumulator and the extraction loop runs.  Returns the frames emitted for
this chunk together with the new accumulator contents. -/
def feedChunk (buf data : List Nat) : List (List Nat) × List Nat :=
  if data = [] then ([], buf) else scanLoop (buf ++ data)

/-- `feedChunk` iterated over a sequence of arriving chunks, collecting all
emitted frames in order. -/
def feedChunks (buf : List Nat) : List (List Nat) → List (List Nat) × List Nat
  | [] => ([], buf)
  | c :: cs =>
    let p := feedChunk buf c
    let q := feedChunks p.2 cs
    (p.1 ++ q.1, q.2)

/-- Chunked processing starting from a delimiter-free accumulator agrees with
a single scan of the accumulator followed by all chunk bytes. -/
theorem feedChunks_eq_extractF : ∀ (cs : List (List Nat)) (buf : List Nat),
    FRAME_DELIM ∉ buf → feedChunks buf cs = extractF (buf ++ cs.flatten) := by
  intro cs
  induction cs with
  | nil =>
    intro buf hbuf
    simp only [feedChunks, List.flatten_nil, List.append_nil]
    rw [extractF_of_not_mem buf hbuf]
  | cons c cs ih =>
    intro buf hbuf
    cases c with
    | nil =>
      have h1 : feedChunk buf [] = ([], buf) := rfl
      simp only [feedChunks, h1, List.flatten_cons, List.nil_append]
      rw [ih buf hbuf]
    | cons x xs =>
      have h1 : feedChunk buf (x :: xs) = extractF (buf ++ x :: xs) := by
        simp only [feedChunk, if_neg (by simp : ¬(x :: xs = []))]
        exact scanLoop_eq_extractF _
      have hnd : FRAME_DELIM ∉ (extractF (buf ++ x :: xs)).2 := extractF_snd_not_mem _
      simp only [feedChunks, h1]
      rw [ih _ hnd, List.flatten_cons, ← List.append_assoc,
        extractF_append (buf ++ x :: xs) cs.flatten]

/-- **C1.**  Frame integrity under arbitrary chunking: for every byte sequence
and every partition of it into chunks (including one byte at a time and chunks
separating a delimiter from its payload), the accumulate-and-scan step emits
exactly the frame sequence obtained by processing the whole sequence in one
step, which is the sequence obtained by splitting the whole sequence at the
delimiters at once and discarding the delimiters. -/
theorem frame_integrity_chunk_invariant (cs : List (List Nat)) :
    feedChunks [] cs = feedChunk [] cs.flatten
    ∧ (feedChunks [] cs).1 = (splitPieces cs.flatten).dropLast := by
  have h := feedChunks_eq_extractF cs [] (by simp)
  simp only [List.nil_append] at h
  constructor
  · rw [h]
    cases hc : cs.flatten with
    | nil => rfl
    | cons x xs =>
      simp only [feedChunk, if_neg (by simp : ¬(x :: xs = []))]
      rw [List.nil_append, scanLoop_eq_extractF]
  · rw [h, extractF_eq_splitPieces]

/-- **C2.**  No loss, no duplication: after processing any chunk sequence, the
emitted frames, each with one delimiter byte re-inserted after it, followed by
the bytes remaining in the accumulator, reconstruct the concatenation of the
input chunks exactly. -/
theorem no_loss_no_duplication (cs : List (List Nat)) :
    ((feedChunks [] cs).1.map (fun f => f ++ [FRAME_DELIM])).flatten
        ++ (feedChunks [] cs).2 = cs.flatten := by
  have h := feedChunks_eq_extractF cs [] (by simp)
  simp only [List.nil_append] at h
  rw [h]
  exact extractF_reconstruct _

/-- **C6.**  The stream `b"hello\rworld\rpar"` delivered as the two chunks
`b"hello\rwor"` then `b"ld\rpar"` yields exactly the frames `b"hello"` and
`b"world"` in that order, with `b"par"` left in the accumulator. -/
theorem scenario_hello_world :
    feedChunks [] [[104, 101, 108, 108, 111, 13, 119, 111, 114],
                   [108, 100, 13, 112, 97, 114]]
      = ([[104, 101, 108, 108, 111], [119, 111, 114, 108, 100]],
         [112, 97, 114]) := by
  have h := feedChunks_eq_extractF
    [[104, 101, 108, 108, 111, 13, 119, 111, 114], [108, 100, 13, 112, 97, 114]]
    [] (by simp)
  simp only [List.nil_append] at h
  rw [h]
  rfl

theorem extractF_replicate : ∀ n : Nat,
    extractF (List.replicate n FRAME_DELIM) = (List.replicate n [], []) := by
  intro n
  induction n with
  | zero => rfl
  | succ k ih => simp [List.replicate_succ, extractF, ih]

/-- **C10.**  Consecutive delimiters yield empty frames rather than being
skipped: a chunk of `n` delimiter bytes fed to a reader with an empty
accumulator emits exactly `n` empty frames, and empties the accumulator. -/
theorem consecutive_delims_empty_frames (n : Nat) :
    feedChunk [] (List.replicate n FRAME_DELIM) = (List.replicate n [], []) := by
  cases n with
  | zero => rfl
  | succ k =>
    simp only [feedChunk,
      if_neg (by simp : ¬(List.replicate (k + 1) FRAME_DELIM = []))]
    rw [List.nil_append, scanLoop_eq_extractF]
    exact extractF_replicate (k + 1)

/-- Outcome of one `AppController.send_line` call. -/
inductive SendResult
  | notConnected
  | encodingError
  | writeFailed
  | ok
deriving DecidableEq

/-- `str.encode("ascii", errors="strict")`: the identity on code points below
128, an exception (`none`) as soon as any code point is 128 or larger. -/
def encodeAscii (s : List Nat) : Option (List Nat) :=
  if s.all (fun c => c < 128) then some s else none

/-- `AppController.send_line` (src/main.py:166-178), abstracted over whether a
serial handle is currently held (`serial_port is not None`) and whether the
device write raises.  Returns the outcome together with the list of payloads
passed to `serial_port.write`, in call order. -/
def send_line (hasPort writeRaises : Bool) (line : List Nat) :
    SendResult × List (List Nat) :=
  if hasPort = false then (SendResult.notConnected, [])
  else
    match encodeAscii (line ++ [FRAME_DELIM]) with
    | none => (SendResult.encodingError, [])
    | some payload =>
      if writeRaises then (SendResult.writeFailed, [payload])
      else (SendResult.ok, [payload])

/-- **C3.**  Encoding rejection: a command containing any character outside
7-bit ASCII makes `send_line` fail with the encoding error, and the underlying
serial write is never invoked (no payload is written, not even partially). -/
theorem nonascii_rejected (writeRaises : Bool) (line : List Nat)
    (hna : ∃ c ∈ line, 128 ≤ c) :
    send_line true writeRaises line = (SendResult.encodingError, []) := by
  obtain ⟨c, hc, hge⟩ := hna
  have henc : encodeAscii (line ++ [FRAME_DELIM]) = none := by
    simp only [encodeAscii, ite_eq_right_iff]
    intro hall
    rw [List.all_eq_true] at hall
    have := hall c (by simp [hc])
    simp at this
    omega
  simp [send_line, henc]

/-- Witness for C3 at the spec's example `"héllo"` (code points, `é = 233`). -/
theorem nonascii_rejected_witness :
    send_line true false [104, 233, 108, 108, 111]
      = (SendResult.encodingError, []) :=
  nonascii_rejected false [104, 233, 108, 108, 111] ⟨233, by simp, by omega⟩

/-- **C5.**  Guarded transmit: while no serial handle is held, every
`send_line` call fails with the not-connected outcome and performs no write,
whatever the command and whatever the device would have done. -/
theorem send_while_disconnected (writeRaises : Bool) (line : List Nat) :
    send_line false writeRaises line = (SendResult.notConnected, []) := by
  simp [send_line]

/-- Digits of `"%02d"` formatting of `n` (two characters, zero padded). -/
def two_digit (n : Nat) : List Nat := [48 + n / 10, 48 + n % 10]

/-- `now.strftime("%H:%M:%S")` (src/main.py:215): zero-padded 24-hour clock
text as code points, with `:` = 58. -/
def hhmmss (h m s : Nat) : List Nat :=
  two_digit h ++ 58 :: two_digit m ++ 58 :: two_digit s

/-- Code points of `"time="`. -/
def timeEqStr : List Nat := [116, 105, 109, 101, 61]

/-- Code points of `"time"`. -/
def timeStr : List Nat := [116, 105, 109, 101]

/-- `48 ≤ c ≤ 57`, i.e. `c` is the code point of a decimal digit. -/
def isDigit (c : Nat) : Bool := decide (48 ≤ c ∧ c ≤ 57)

/-- Whether a code point list has the exact shape `HH:MM:SS`. -/
def matchesHHMMSS : List Nat → Bool
  | [d1, d2, c1, d3, d4, c2, d5, d6] =>
    isDigit d1 && isDigit d2 && (c1 == 58) && isDigit d3 && isDigit d4
      && (c2 == 58) && isDigit d5 && isDigit d6
  | _ => false

/-- Outbound wire activity observable from the foreground path. -/
inductive ConnEv
  | write (payload : List Nat)
  | sleepMs (ms : Nat)
deriving DecidableEq

/-- The outbound activity of one `AppController.connect_serial` call
(src/main.py:180-219): the already-connected, no-port-selected and open-failure
guards all return before any write; on success the handshake sends
`time=HH:MM:SS` through `send_line`, sleeps 20 ms, then sends `time` through
`send_line`.  `w1`/`w2` say whether the respective device writes raise. -/
def connect_serial (alreadyConnected noPortSelected openRaises w1 w2 : Bool)
    (h m s : Nat) : List ConnEv :=
  if alreadyConnected then []
  else if noPortSelected then []
  else if openRaises then []
  else
    (send_line true w1 (timeEqStr ++ hhmmss h m s)).2.map ConnEv.write
      ++ ConnEv.sleepMs 20
          :: (send_line true w2 timeStr).2.map ConnEv.write

/-- **C4.**  Handshake: every successful open performs exactly two outbound
writes before any operator command — first the payload `time=HH:MM:SS`
followed by the delimiter, formatted from the current wall-clock time in
zero-padded 24-hour format, then the payload `time` followed by the delimiter,
in that order, separated by a non-negative (20 ms) delay. -/
theorem handshake_two_writes (w1 w2 : Bool) (h m s : Nat)
    (hh : h < 24) (hm : m < 60) (hs : s < 60) :
    connect_serial false false false w1 w2 h m s
      = [ConnEv.write (timeEqStr ++ hhmmss h m s ++ [FRAME_DELIM]),
         ConnEv.sleepMs 20,
         ConnEv.write (timeStr ++ [FRAME_DELIM])]
    ∧ matchesHHMMSS (hhmmss h m s) = true := by
  constructor
  · have henc1 : encodeAscii ((timeEqStr ++ hhmmss h m s) ++ [FRAME_DELIM])
        = some ((timeEqStr ++ hhmmss h m s) ++ [FRAME_DELIM]) := by
      simp only [encodeAscii, ite_eq_left_iff]
      intro hall
      exfalso
      apply hall
      rw [List.all_eq_true]
      intro c hc
      simp only [timeEqStr, hhmmss, two_digit, FRAME_DELIM, List.mem_append,
        List.mem_cons, List.mem_singleton, List.not_mem_nil] at hc
      rcases hc with hc | hc
      · rcases hc with hc | hc <;> [skip; rcases hc with hc | hc] <;>
          simp_all <;> omega
      · simp_all
    have henc2 : encodeAscii (timeStr ++ [FRAME_DELIM])
        = some (timeStr ++ [FRAME_DELIM]) := by
      simp [encodeAscii, timeStr, FRAME_DELIM]
    show (send_line true w1 (timeEqStr ++ hhmmss h m s)).2.map ConnEv.write
        ++ ConnEv.sleepMs 20 :: (send_line true w2 timeStr).2.map ConnEv.write
      = _
    cases w1 <;> cases w2 <;> (simp only [send_line, henc1, henc2]; simp)
  · simp only [hhmmss, two_digit, matchesHHMMSS, isDigit]
    simp only [List.cons_append, List.nil_append]
    refine (by simp : ∀ a b c d e f : Bool,
      a = true → b = true → c = true → d = true → e = true → f = true →
      (a && b && (58 == 58) && c && d && (58 == 58) && e && f) = true) _ _ _ _ _ _
      ?_ ?_ ?_ ?_ ?_ ?_ <;> (rw [decide_eq_true_iff]; omega)

/-- Witness for C4 at the clock reading 12:34:56. -/
theorem handshake_two_writes_witness :
    connect_serial false false false false false 12 34 56
      = [ConnEv.write (timeEqStr ++ hhmmss 12 34 56 ++ [FRAME_DELIM]),
         ConnEv.sleepMs 20,
         ConnEv.write (timeStr ++ [FRAME_DELIM])]
    ∧ matchesHHMMSS (hhmmss 12 34 56) = true :=
  handshake_two_writes false false 12 34 56 (by omega) (by omega) (by omega)

/-- Connection-relevant state of `AppController` (src/main.py:87-88): whether
`serial_port` and `reader` are non-`None`. -/
structure AppState where
  hasPort : Bool
  hasReader : Bool
deriving DecidableEq

/-- Observable steps of the close path, in execution order. -/
inductive CloseEv
  | signalStop
  | waitReader (ms : Nat)
  | releaseHandle
deriving DecidableEq

/-- Outcome reported by `disconnect_serial`: the early-return message
`"No estoy conectado."` or a completed disconnect. -/
inductive CloseResult
  | noop
  | closed
deriving DecidableEq

/-- `AppController.stop_reader` (src/main.py:150-155): early return when no
reader reference is held; otherwise set the stop flag, wait up to 1000 ms for
the thread (the wait's success, `waitTimedOut`, is ignored by the code), and
drop the reference.  Returns the new `hasReader` and the steps taken. -/
def stop_reader (hasReader waitTimedOut : Bool) : Bool × List CloseEv :=
  if hasReader then (false, [CloseEv.signalStop, CloseEv.waitReader 1000])
  else (hasReader, [])

/-- `AppController.disconnect_serial` (src/main.py:221-243): early no-op return
when no handle is held; otherwise stop the reader first, then close the handle
(`closeRaises` says whether `serial_port.close()` raises; the exception is
caught and the reference is dropped in the `finally` block regardless).
Returns the new state, the reported outcome and the ordered steps taken. -/
def disconnect_serial (st : AppState) (waitTimedOut closeRaises : Bool) :
    AppState × CloseResult × List CloseEv :=
  if st.hasPort = false then (st, CloseResult.noop, [])
  else
    let r := stop_reader st.hasReader waitTimedOut
    (⟨false, r.1⟩, CloseResult.closed, r.2 ++ [CloseEv.releaseHandle])

/-- **C7.**  Idempotent close: whatever the state and whatever the reader had
done, a second close right after a first one reports only the no-op message —
no error, no crash, no steps; and close while disconnected is a no-op that
leaves the whole state unchanged. -/
theorem close_idempotent (st : AppState) (w1 c1 w2 c2 : Bool) :
    disconnect_serial (disconnect_serial st w1 c1).1 w2 c2
      = ((disconnect_serial st w1 c1).1, CloseResult.noop, [])
    ∧ (st.hasPort = false →
        disconnect_serial st w1 c1 = (st, CloseResult.noop, [])) := by
  constructor
  · by_cases hp : st.hasPort = false
    · simp [disconnect_serial, hp]
    · simp [disconnect_serial, hp]
  · intro hp
    simp [disconnect_serial, hp]

/-- Witness for C7: double close from a fully active state, and close from the
disconnected state. -/
theorem close_idempotent_witness :
    disconnect_serial (disconnect_serial ⟨true, true⟩ false false).1 false false
      = ((disconnect_serial ⟨true, true⟩ false false).1, CloseResult.noop, [])
    ∧ disconnect_serial ⟨false, false⟩ false false
      = (⟨false, false⟩, CloseResult.noop, []) :=
  ⟨(close_idempotent ⟨true, true⟩ false false false false).1,
   (close_idempotent ⟨false, false⟩ false false false false).2 rfl⟩

/-- **C8.**  Close ordering: closing an active connection (handle held, reader
running) first signals the reader to stop, then waits up to the bounded
1000 ms timeout, and only after that wait — regardless of whether it timed out
and of whether the handle close raises — releases the handle, ending in the
disconnected state with no reader. -/
theorem close_ordering (st : AppState) (waitTimedOut closeRaises : Bool)
    (hp : st.hasPort = true) (hr : st.hasReader = true) :
    disconnect_serial st waitTimedOut closeRaises
      = (⟨false, false⟩, CloseResult.closed,
         [CloseEv.signalStop, CloseEv.waitReader 1000, CloseEv.releaseHandle]) := by
  simp [disconnect_serial, stop_reader, hp, hr]

/-- Witness for C8 from the fully active state, with the wait timing out. -/
theorem close_ordering_witness :
    disconnect_serial ⟨true, true⟩ true false
      = (⟨false, false⟩, CloseResult.closed,
         [CloseEv.signalStop, CloseEv.waitReader 1000, CloseEv.releaseHandle]) :=
  close_ordering ⟨true, true⟩ true false rfl rfl

/-- Result of one `ser.read(4096)` call. -/
inductive ReadResult
  | ok (data : List Nat)
  | err
deriving DecidableEq

/-- One top-of-loop observation of `SerialReader.run`: either the stop flag is
seen set, or the read returns (possibly empty) data, or the read raises. -/
inductive LoopStep
  | stop
  | read (r : ReadResult)
deriving DecidableEq

/-- Events emitted through the reader's signals: `started`/`stopped` are the
`info` lifecycle messages, `frame` is `frame_received`, `error` is the fatal
read-error message, `sleep` marks the 2 ms pause on an empty read. -/
inductive REv
  | started
  | frame (f : List Nat)
  | error
  | sleep
  | stopped
deriving DecidableEq

/-- The while loop of `SerialReader.run` (src/main.py:61-79) driven by a finite
script of top-of-loop observations.  Returns the events emitted in order and
whether the loop exited (stop flag observed, or read error) within the
script. -/
def loopRun (buf : List Nat) : List LoopStep → List REv × Bool
  | [] => ([], false)
  | LoopStep.stop :: _ => ([], true)
  | LoopStep.read ReadResult.err :: _ => ([REv.error], true)
  | LoopStep.read (ReadResult.ok d) :: rest =>
    if d = [] then
      let p := loopRun buf rest
      (REv.sleep :: p.1, p.2)
    else
      let q := scanLoop (buf ++ d)
      let p := loopRun q.2 rest
      (q.1.map REv.frame ++ p.1, p.2)

/-- `SerialReader.run` (src/main.py:58-81): the start event, the loop events,
and — once the loop has exited — the stopped event from `finally`. -/
def runReader (steps : List LoopStep) : List REv :=
  REv.started :: (loopRun [] steps).1
    ++ (if (loopRun [] steps).2 then [REv.stopped] else [])

/-- Loop observations that neither stop the loop nor raise. -/
def nonTerm : LoopStep → Bool
  | LoopStep.read (ReadResult.ok _) => true
  | _ => false

def isErrEv : REv → Bool
  | REv.error => true
  | _ => false

theorem loopRun_err : ∀ pre : List LoopStep, pre.all nonTerm = true →
    ∀ (buf : List Nat) (post : List LoopStep),
      loopRun buf (pre ++ LoopStep.read ReadResult.err :: post)
        = loopRun buf (pre ++ [LoopStep.read ReadResult.err])
      ∧ (loopRun buf (pre ++ LoopStep.read ReadResult.err :: post)).1.countP isErrEv
          = 1
      ∧ (loopRun buf (pre ++ LoopStep.read ReadResult.err :: post)).2 = true := by
  intro pre
  induction pre with
  | nil =>
    intro _ buf post
    refine ⟨rfl, ?_, rfl⟩
    simp [loopRun, isErrEv]
  | cons s pre ih =>
    intro hall buf post
    rw [List.all_cons, Bool.and_eq_true] at hall
    cases s with
    | stop => simp [nonTerm] at hall
    | read r =>
      cases r with
      | err => simp [nonTerm] at hall
      | ok d =>
        by_cases hd : d = []
        · subst hd
          obtain ⟨e1, e2, e3⟩ := ih hall.2 buf post
          refine ⟨?_, ?_, ?_⟩
          · show (REv.sleep
                :: (loopRun buf (pre ++ LoopStep.read ReadResult.err :: post)).1,
              (loopRun buf (pre ++ LoopStep.read ReadResult.err :: post)).2)
              = (REv.sleep
                  :: (loopRun buf (pre ++ [LoopStep.read ReadResult.err])).1,
                 (loopRun buf (pre ++ [LoopStep.read ReadResult.err])).2)
            rw [e1]
          · show (REv.sleep
                :: (loopRun buf (pre ++ LoopStep.read ReadResult.err :: post)).1
                ).countP isErrEv = 1
            rw [List.countP_cons, e2]
            simp [isErrEv]
          · exact e3
        · obtain ⟨e1, e2, e3⟩ := ih hall.2 (scanLoop (buf ++ d)).2 post
          simp only [List.cons_append, loopRun, List.append_eq, if_neg hd]
          refine ⟨?_, ?_, ?_⟩
          · rw [e1]
          · rw [List.countP_append, e2]
            have hz : ((scanLoop (buf ++ d)).1.map REv.frame).countP isErrEv = 0 := by
              rw [List.countP_eq_zero]
              intro e he
              obtain ⟨f, hf, rfl⟩ := List.mem_map.mp he
              simp [isErrEv]
            omega
          · exact e3

theorem loopRun_exits : ∀ pre : List LoopStep, pre.all nonTerm = true →
    ∀ t : LoopStep, nonTerm t = false →
    ∀ (buf : List Nat) (post : List LoopStep),
      (loopRun buf (pre ++ t :: post)).2 = true := by
  intro pre
  induction pre with
  | nil =>
    intro _ t ht buf post
    cases t with
    | stop => rfl
    | read r =>
      cases r with
      | err => rfl
      | ok d => simp [nonTerm] at ht
  | cons s pre ih =>
    intro hall t ht buf post
    rw [List.all_cons, Bool.and_eq_true] at hall
    cases s with
    | stop => simp [nonTerm] at hall
    | read r =>
      cases r with
      | err => simp [nonTerm] at hall
      | ok d =>
        by_cases hd : d = []
        · subst hd
          simp only [List.cons_append, loopRun, if_pos rfl]
          exact ih hall.2 t ht buf post
        · simp only [List.cons_append, loopRun, if_neg hd]
          exact ih hall.2 t ht (scanLoop (buf ++ d)).2 post

theorem runReader_last_stopped (steps : List LoopStep)
    (h : (loopRun [] steps).2 = true) :
    (runReader steps).getLast? = some REv.stopped := by
  have hshape : runReader steps
      = (REv.started :: (loopRun [] steps).1) ++ [REv.stopped] := by
    simp [runReader, h]
  rw [hshape, List.getLast?_append_cons]
  rfl

/-- **C9.**  Reader error handling: after any run of normal reads, a read
error makes the loop emit exactly one error event and exit, ignoring
everything that would have followed (no read retry); and on each exit path —
read error or stop signal — the run's final emitted event is the stopped
event (never silently swallowed). -/
theorem reader_error_terminates (buf : List Nat) (pre post : List LoopStep)
    (hpre : pre.all nonTerm = true) :
    loopRun buf (pre ++ LoopStep.read ReadResult.err :: post)
      = loopRun buf (pre ++ [LoopStep.read ReadResult.err])
    ∧ (loopRun buf (pre ++ LoopStep.read ReadResult.err :: post)).1.countP isErrEv
        = 1
    ∧ (loopRun buf (pre ++ LoopStep.read ReadResult.err :: post)).2 = true
    ∧ (runReader (pre ++ LoopStep.read ReadResult.err :: post)).getLast?
        = some REv.stopped
    ∧ (runReader (pre ++ LoopStep.stop :: post)).getLast? = some REv.stopped := by
  obtain ⟨e1, e2, e3⟩ := loopRun_err pre hpre buf post
  refine ⟨e1, e2, e3, ?_, ?_⟩
  · exact runReader_last_stopped _
      (loopRun_exits pre hpre (LoopStep.read ReadResult.err) rfl [] post)
  · exact runReader_last_stopped _
      (loopRun_exits pre hpre LoopStep.stop rfl [] post)

/-- Witness for C9: one successful read of `b"a\r"`, then a read error, with a
trailing script entry that the terminated loop never examines. -/
theorem reader_error_terminates_witness :
    loopRun [] [LoopStep.read (ReadResult.ok [97, 13]),
                LoopStep.read ReadResult.err, LoopStep.stop]
      = loopRun [] [LoopStep.read (ReadResult.ok [97, 13]),
                    LoopStep.read ReadResult.err]
    ∧ (loopRun [] [LoopStep.read (ReadResult.ok [97, 13]),
                   LoopStep.read ReadResult.err, LoopStep.stop]).1.countP isErrEv
        = 1
    ∧ (loopRun [] [LoopStep.read (ReadResult.ok [97, 13]),
                   LoopStep.read ReadResult.err, LoopStep.stop]).2 = true
    ∧ (runReader [LoopStep.read (ReadResult.ok [97, 13]),
                  LoopStep.read ReadResult.err, LoopStep.stop]).getLast?
        = some REv.stopped
    ∧ (runReader [LoopStep.read (ReadResult.ok [97, 13]),
                  LoopStep.stop, LoopStep.stop]).getLast? = some REv.stopped :=
  reader_error_terminates [] [LoopStep.read (ReadResult.ok [97, 13])]
    [LoopStep.stop] rfl

end RFQ
